import Mathlib

/-!
Verification development for the `fobserver` HTTP/1.x server library.

The Rust sources (`src/http.rs`, `src/router.rs`, `src/lib.rs`) are shallowly
embedded below: strings are `List Char`, raw socket bytes are `List Nat`,
`HashMap` becomes an association list with overwrite-on-insert semantics,
fallible code returns `Except` / dedicated result types, and the unguarded
`unwrap` calls of the source are modelled by an explicit `crash` outcome.
-/

namespace FObserver

/-! ## Rust string primitives -/

/-- `char::to_ascii_uppercase`. -/
def asciiUpperChar (c : Char) : Char :=
  if 'a' ≤ c ∧ c ≤ 'z' then Char.ofNat (c.toNat - 32) else c

/-- `str::to_ascii_uppercase`. -/
def asciiUpper (s : List Char) : List Char :=
  s.map asciiUpperChar

/-- Split a character list on a separator character, keeping empty pieces
(ie. Rust `str::split(sep)`: always at least one piece). -/
def splitOnChar (sep : Char) : List Char → List (List Char)
  | [] => [[]]
  | c :: cs =>
    if c = sep then [] :: splitOnChar sep cs
    else
      match splitOnChar sep cs with
      | [] => [[c]]
      | p :: ps => (c :: p) :: ps

/-- Drop one trailing carriage return, if present. -/
def stripCr (l : List Char) : List Char :=
  match l.reverse with
  | [] => l
  | c :: rest => if c = '\r' then rest.reverse else l

/-- Rust `str::lines`: split at `\n` or `\r\n`; the final line ending is
optional, and a final `\r` not followed by `\n` is kept. -/
def rustLines (s : List Char) : List (List Char) :=
  let parts := splitOnChar '\n' s
  let front := parts.dropLast.map stripCr
  match parts.getLast? with
  | none => front
  | some last => if last = [] then front else front ++ [last]

/-- Rust `str::split_whitespace`: pieces between whitespace runs, no empties. -/
def splitWsAux : List Char → List Char → List (List Char)
  | [], acc => if acc = [] then [] else [acc.reverse]
  | c :: cs, acc =>
    if c.isWhitespace then
      if acc = [] then splitWsAux cs [] else acc.reverse :: splitWsAux cs []
    else splitWsAux cs (c :: acc)

def splitWs (s : List Char) : List (List Char) :=
  splitWsAux s []

/-- Rust `str::trim`: drop leading and trailing whitespace. -/
def rustTrim (s : List Char) : List Char :=
  ((s.dropWhile Char.isWhitespace).reverse.dropWhile Char.isWhitespace).reverse

/-! ## Association-list model of `HashMap<String, String>` (and friends).

`insert` overwrites the value stored under an equal key and otherwise
appends; `get` returns the stored value, if any. -/

def assocInsert {κ ν : Type} [DecidableEq κ] (m : List (κ × ν)) (k : κ) (v : ν) :
    List (κ × ν) :=
  match m with
  | [] => [(k, v)]
  | (k', v') :: rest =>
    if k' = k then (k, v) :: rest else (k', v') :: assocInsert rest k v

def assocGet {κ ν : Type} [DecidableEq κ] (m : List (κ × ν)) (k : κ) : Option ν :=
  match m with
  | [] => none
  | (k', v') :: rest => if k' = k then some v' else assocGet rest k

/-! ## Wire types (`src/http.rs`) -/

inductive Method
  | GET | HEAD | POST | PUT | DELETE | CONNECT | OPTIONS | TRACE | PATCH
deriving DecidableEq, Repr

inductive Version
  | V10 | V11 | V20 | V30
deriving DecidableEq, Repr

/-- Parse / serialization errors (`anyhow::anyhow!` messages of the source). -/
inductive Err
  | noMatchingMethod     -- "No matching HTTP method"
  | noMatchingVersion    -- "No matching HTTP version"
  | invalidRequest       -- "Invalid request"
  | missingMethod        -- "Missing method"
  | missingPath          -- "Missing path"
  | missingVersion       -- "Missing HTTP version"
  | malformedHeader      -- "Malformed header"
deriving DecidableEq, Repr

/-- `impl FromStr for Method`. -/
def Method.fromStr (s : List Char) : Except Err Method :=
  let u := asciiUpper s
  if u = "GET".toList then .ok .GET
  else if u = "HEAD".toList then .ok .HEAD
  else if u = "POST".toList then .ok .POST
  else if u = "PUT".toList then .ok .PUT
  else if u = "DELETE".toList then .ok .DELETE
  else if u = "CONNECT".toList then .ok .CONNECT
  else if u = "OPTIONS".toList then .ok .OPTIONS
  else if u = "TRACE".toList then .ok .TRACE
  else if u = "PATCH".toList then .ok .PATCH
  else .error .noMatchingMethod

/-- `impl ToString for Method`. -/
def Method.str : Method → List Char
  | .GET => "GET".toList
  | .HEAD => "HEAD".toList
  | .POST => "POST".toList
  | .PUT => "PUT".toList
  | .DELETE => "DELETE".toList
  | .CONNECT => "CONNECT".toList
  | .OPTIONS => "OPTIONS".toList
  | .TRACE => "TRACE".toList
  | .PATCH => "PATCH".toList

/-- `impl FromStr for Version`. -/
def Version.fromStr (s : List Char) : Except Err Version :=
  let u := asciiUpper s
  if u = "HTTP/1.0".toList then .ok .V10
  else if u = "HTTP/1.1".toList then .ok .V11
  else if u = "HTTP/2.0".toList then .ok .V20
  else if u = "HTTP/3.0".toList then .ok .V30
  else .error .noMatchingVersion

/-- `impl ToString for Version`. -/
def Version.str : Version → List Char
  | .V10 => "HTTP/1.0".toList
  | .V11 => "HTTP/1.1".toList
  | .V20 => "HTTP/2.0".toList
  | .V30 => "HTTP/3.0".toList

/-- `enum StatusCode` of `src/http.rs` (CODE201 is commented out there). -/
inductive StatusCode
  | CODE100 | CODE102 | CODE103
  | CODE200 | CODE202 | CODE204 | CODE205 | CODE206
  | CODE300 | CODE301 | CODE302 | CODE303 | CODE304 | CODE307 | CODE308
  | CODE400 | CODE401 | CODE403 | CODE404 | CODE405 | CODE406 | CODE408 | CODE409
  | CODE500 | CODE501 | CODE502 | CODE503 | CODE504 | CODE505 | CODE511
deriving DecidableEq, Repr

/-- `impl ToString for StatusCode` — transcribed verbatim, including the
source's misspelling in the 503 arm. -/
def StatusCode.str : StatusCode → List Char
  | .CODE100 => "100 Continue".toList
  | .CODE102 => "102 Processing".toList
  | .CODE103 => "103 Early Hints".toList
  | .CODE200 => "200 OK".toList
  | .CODE202 => "202 Accepted".toList
  | .CODE204 => "204 No Content".toList
  | .CODE205 => "205 Reset Content".toList
  | .CODE206 => "206 Partial Content".toList
  | .CODE300 => "300 Multiple Choices".toList
  | .CODE301 => "301 Moved Permanently".toList
  | .CODE302 => "302 Found".toList
  | .CODE303 => "303 See Other".toList
  | .CODE304 => "304 Not Modified".toList
  | .CODE307 => "307 Temporary Redirect".toList
  | .CODE308 => "308 Permanent Redirect".toList
  | .CODE400 => "400 Bad Request".toList
  | .CODE401 => "401 Unauthorized".toList
  | .CODE403 => "403 Forbidden".toList
  | .CODE404 => "404 Not Found".toList
  | .CODE405 => "405 Method Not Allowed".toList
  | .CODE406 => "406 Not Acceptable".toList
  | .CODE408 => "408 Request Timeout".toList
  | .CODE409 => "409 Conflict".toList
  | .CODE500 => "500 Internal Server Error".toList
  | .CODE501 => "501 Not Implemented".toList
  | .CODE502 => "502 Bad Gateway".toList
  | .CODE503 => "503 Service Unabailable".toList
  | .CODE504 => "504 Gateway Timeout".toList
  | .CODE505 => "505 HTTP Version Not Supported".toList
  | .CODE511 => "511 Network Authentication Required".toList

/-- Every variant of the `StatusCode` enumeration. -/
def allStatusCodes : List StatusCode :=
  [.CODE100, .CODE102, .CODE103,
   .CODE200, .CODE202, .CODE204, .CODE205, .CODE206,
   .CODE300, .CODE301, .CODE302, .CODE303, .CODE304, .CODE307, .CODE308,
   .CODE400, .CODE401, .CODE403, .CODE404, .CODE405, .CODE406, .CODE408, .CODE409,
   .CODE500, .CODE501, .CODE502, .CODE503, .CODE504, .CODE505, .CODE511]

/-! ## Request parsing (`impl FromStr for HTTPRequest`) -/

structure HTTPRequest where
  method : Method
  path : List Char
  version : Version
  headers : List (List Char × List Char)
  body : Option (List Char)
deriving DecidableEq, Repr

/-- Rust `line.splitn(2, ':')` as used by the header loop: the text before the
first colon, and — when a colon exists — the whole text after it. -/
def splitFirstColon : List Char → List Char × Option (List Char)
  | [] => ([], none)
  | c :: cs =>
    if c = ':' then ([], some cs)
    else
      let (a, b) := splitFirstColon cs
      (c :: a, b)

/-- The header `for` loop of `HTTPRequest::from_str`: consume lines until the
first empty line (which ends the headers) or exhaustion, returning the header
map together with the lines left for the body. -/
def parseHeaders :
    List (List Char) → List (List Char × List Char) →
    Except Err (List (List Char × List Char) × List (List Char))
  | [], acc => .ok (acc, [])
  | l :: ls, acc =>
    if l = [] then .ok (acc, ls)
    else
      match splitFirstColon l with
      | (_, none) => .error .malformedHeader
      | (name, some value) =>
        parseHeaders ls (assocInsert acc (rustTrim name) (rustTrim value))

/-- `HTTPRequest::from_str`. -/
def HTTPRequest.fromStr (s : List Char) : Except Err HTTPRequest := do
  let lines := rustLines s
  match lines with
  | [] => .error .invalidRequest
  | requestLine :: rest =>
    let parts := splitWs requestLine
    let method ← match parts.get? 0 with
      | none => .error .missingMethod
      | some t => Method.fromStr t
    let path ← match parts.get? 1 with
      | none => (.error .missingPath : Except Err (List Char))
      | some t => .ok t
    let version ← match parts.get? 2 with
      | none => .error .missingVersion
      | some t => Version.fromStr t
    let (headers, remaining) ← parseHeaders rest []
    let body :=
      if remaining.length > 0 then some (List.intercalate "\n".toList remaining)
      else none
    .ok { method := method, path := path, version := version,
          headers := headers, body := body }

/-! ## Header and cookie helpers (`impl HTTPRequest`) -/

/-- `HTTPRequest::get_header`. -/
def getHeader (request : HTTPRequest) (header : List Char) : Option (List Char) :=
  assocGet request.headers header

/-- Outcome of `HTTPRequest::get_cookies`: the cookie map, the
"No Cookie header found" error, or the crash of the unguarded
`split.next().unwrap()` on an entry with no `=`. -/
inductive CookiesResult
  | ok (cookies : List (List Char × List Char))
  | errNoCookieHeader
  | crash
deriving DecidableEq, Repr

/-- The `for cookie in data.split(";")` loop of `get_cookies`: each entry is
split on `=`; the first `unwrap` always succeeds (a split is never empty), the
second crashes when the entry holds no `=`. -/
def cookiesLoop :
    List (List Char) → List (List Char × List Char) → CookiesResult
  | [], acc => .ok acc
  | entry :: rest, acc =>
    match splitOnChar '=' entry with
    | name :: value :: _ => cookiesLoop rest (assocInsert acc name value)
    | _ => .crash

/-- `HTTPRequest::get_cookies`. -/
def getCookies (request : HTTPRequest) : CookiesResult :=
  match getHeader request "Cookie".toList with
  | none => .errNoCookieHeader
  | some data => cookiesLoop (splitOnChar ';' data) []

/-- Outcome of `HTTPRequest::get_cookie`. -/
inductive CookieResult
  | ok (value : List Char)
  | errNoCookieHeader
  | errCookieNotFound   -- "No cookie with this name ... exists"
  | crash
deriving DecidableEq, Repr

/-- `HTTPRequest::get_cookie`. -/
def getCookie (request : HTTPRequest) (cookie : List Char) : CookieResult :=
  match getCookies request with
  | .errNoCookieHeader => .errNoCookieHeader
  | .crash => .crash
  | .ok cookies =>
    match assocGet cookies cookie with
    | some value => .ok value
    | none => .errCookieNotFound

/-! ## Responses (`struct HTTPResponse`) and the response framer
(`Server::write_response` in `src/lib.rs`).

The wire stream is a `List Nat` of bytes; all text written by the server is
ASCII, so a character becomes the byte `Char.toNat`. -/

structure HTTPResponse where
  version : Version
  statusCode : StatusCode
  headers : List (List Char × List Char)
  body : Option (List Nat)

def charsToBytes (s : List Char) : List Nat :=
  s.map Char.toNat

/-- A single line joined list, Rust `Vec::join("\n")`. -/
def joinNl (lines : List (List Char)) : List Char :=
  List.intercalate "\n".toList lines

/-- `impl ToString for HTTPResponse`: status line, `\n`, then the
`"{k}: {v}"` header lines joined with `\n`. -/
def HTTPResponse.str (r : HTTPResponse) : List Char :=
  r.version.str ++ [' '] ++ r.statusCode.str ++ ['\n'] ++
    joinNl (r.headers.map (fun kv => kv.1 ++ [':', ' '] ++ kv.2))

/-- The chunk size of both `read_request` and `write_response`. -/
def CHUNK : Nat := 4096

/-- One hexadecimal digit, uppercase (`{:X}` formatting). -/
def hexDigit (n : Nat) : Char :=
  if n < 10 then Char.ofNat (48 + n) else Char.ofNat (55 + n)

def hexCore (fuel n : Nat) : List Char :=
  match fuel with
  | 0 => []
  | fuel + 1 => if n = 0 then [] else hexCore fuel (n / 16) ++ [hexDigit (n % 16)]

/-- Rust `format!("{:X}", n)`: uppercase hexadecimal, no leading zeros. -/
def toHexUpper (n : Nat) : List Char :=
  if n = 0 then ['0'] else hexCore n n

/-- The `while start < bytes.len()` loop of `Server::write_response`: each
iteration writes `min(4096, remaining)` as an uppercase-hex line, CRLF, that
many body bytes, CRLF. -/
def writeBodyLoop (bytes : List Nat) (start : Nat) : List Nat :=
  if h : start < bytes.length then
    charsToBytes (toHexUpper (min CHUNK (bytes.length - start))) ++ [13, 10] ++
      ((bytes.drop start).take (min CHUNK (bytes.length - start))) ++ [13, 10] ++
      writeBodyLoop bytes (start + min CHUNK (bytes.length - start))
  else []
termination_by bytes.length - start
decreasing_by
  have hlen : 0 < min CHUNK (bytes.length - start) := by
    have : 0 < bytes.length - start := Nat.sub_pos_of_lt h
    exact lt_min (by decide) this
  omega

/-- `Server::write_response`: force `Transfer-Encoding: chunked`, write the
serialized head followed by `"\n\n"`, then the body chunks (if any), then the
`0\r\n\r\n` terminator. -/
def writeResponse (response : HTTPResponse) : List Nat :=
  let response' :=
    { response with
        headers := assocInsert response.headers
          "Transfer-Encoding".toList "chunked".toList }
  charsToBytes (HTTPResponse.str response' ++ ['\n', '\n']) ++
    (match response'.body with
     | some bytes => writeBodyLoop bytes 0
     | none => []) ++
    charsToBytes "0\r\n\r\n".toList

/-- The spec's description of the body split: "chunks of a fixed maximum size
(4096 bytes)", written as a plain decomposition to compare the loop against. -/
def chunksOf (bytes : List Nat) : List (List Nat) :=
  if bytes = [] then []
  else bytes.take CHUNK :: chunksOf (bytes.drop CHUNK)
termination_by bytes.length
decreasing_by
  rename_i hne
  have : bytes.length ≠ 0 := fun h0 => hne (List.length_eq_zero.mp h0)
  simp only [List.length_drop, CHUNK]
  omega

/-- The spec's framing of one chunk: uppercase-hex length, CRLF, the chunk
bytes, CRLF. -/
def chunkFrame (c : List Nat) : List Nat :=
  charsToBytes (toHexUpper c.length) ++ [13, 10] ++ c ++ [13, 10]

/-! ## Router (`src/router.rs`): a map keyed by (method, path, version).

Handlers are function pointers in the source; the router neither calls nor
inspects them, so they are embedded as an arbitrary type `α`. -/

def Router (α : Type) : Type :=
  List ((Method × List Char × Version) × α)

def Router.empty {α : Type} : Router α := []

/-- `Router::add_route`. -/
def Router.addRoute {α : Type} (r : Router α) (method : Method)
    (path : List Char) (version : Version) (handler : α) : Router α :=
  assocInsert r (method, path, version) handler

/-- `Router::route`. -/
def Router.route {α : Type} (r : Router α) (request : HTTPRequest) : Option α :=
  assocGet r (request.method, request.path, request.version)

/-! ## Reading a request (`Server::read_request`).

The TCP stream is modelled by the sequence of byte slices successive
`stream.read(&mut buffer)` calls deliver (each at most 4096, the buffer size).
The source keeps one 4096-byte buffer: each read overwrites it from index 0;
`dim` accumulates the lengths; the loop stops at the first read shorter than
4096.  The bytes handed to the parser are `from_utf8_lossy(&buffer)[..dim]`,
which for ASCII content is the first `dim` bytes of the final buffer state —
and a string-index panic when `dim` exceeds the buffer's 4096 bytes. -/

def bufAfterRead (buf r : List Nat) : List Nat :=
  r ++ buf.drop r.length

inductive ReadOutcome
  | blocks                -- no short read ever arrives: the loop never exits
  | crash                 -- the `[..dim]` slice is out of bounds
  | text (t : List Nat)   -- the text handed to `.parse()`
deriving DecidableEq, Repr

def readLoop : List (List Nat) → List Nat → Nat → Option (List Nat × Nat)
  | [], _, _ => none
  | r :: rs, buf, dim =>
    let buf' := bufAfterRead buf r
    let dim' := dim + r.length
    if r.length < CHUNK then some (buf', dim') else readLoop rs buf' dim'

/-- `Server::read_request`, up to the text handed to `HTTPRequest::from_str`. -/
def readRequestRaw (reads : List (List Nat)) : ReadOutcome :=
  match readLoop reads (List.replicate CHUNK 0) 0 with
  | none => .blocks
  | some (buf, dim) => if dim ≤ buf.length then .text (buf.take dim) else .crash

/-! ## Auxiliary definitions used by the statements below -/

/-- The canonical method tokens of `Method::from_str`. -/
def methodTokens : List (List Char) :=
  ["GET".toList, "HEAD".toList, "POST".toList, "PUT".toList, "DELETE".toList,
   "CONNECT".toList, "OPTIONS".toList, "TRACE".toList, "PATCH".toList]

/-- The canonical version tokens of `Version::from_str`. -/
def versionTokens : List (List Char) :=
  ["HTTP/1.0".toList, "HTTP/1.1".toList, "HTTP/2.0".toList, "HTTP/3.0".toList]

/-- The zero-length chunk marker `0\r\n\r\n`. -/
def chunkTerminator : List Nat :=
  charsToBytes "0\r\n\r\n".toList

/-- The bytes `write_response` emits before the chunk stream: the serialized
response (after the `Transfer-Encoding` insertion) followed by `"\n\n"`. -/
def responseHead (response : HTTPResponse) : List Nat :=
  charsToBytes
    (HTTPResponse.str
      { response with
          headers := assocInsert response.headers
            "Transfer-Encoding".toList "chunked".toList } ++ ['\n', '\n'])

/-- A request whose only header is `Cookie: data`. -/
def cookieRequest (data : List Char) : HTTPRequest :=
  { method := .GET, path := "/".toList, version := .V11,
    headers := [("Cookie".toList, data)], body := none }

/-! ## Helper lemmas -/

theorem assocGet_assocInsert {κ ν : Type} [DecidableEq κ]
    (m : List (κ × ν)) (k : κ) (v : ν) (k' : κ) :
    assocGet (assocInsert m k v) k' =
      if k' = k then some v else assocGet m k' := by
  induction m with
  | nil =>
    simp only [assocInsert, assocGet]
    by_cases hk : k = k'
    · subst hk; simp
    · rw [if_neg hk, if_neg fun h => hk h.symm]
  | cons p rest ih =>
    obtain ⟨k₀, v₀⟩ := p
    simp only [assocInsert]
    by_cases h0 : k₀ = k
    · subst h0
      simp only [if_pos rfl, assocGet]
      by_cases hk : k₀ = k'
      · subst hk; simp
      · rw [if_neg hk, if_neg fun h => hk h.symm, if_neg hk]
    · simp only [if_neg h0, assocGet, ih]
      by_cases hk : k₀ = k'
      · subst hk
        rw [if_pos rfl, if_neg h0, if_pos rfl]
      · rw [if_neg hk, if_neg hk]

theorem splitOnChar_ne_nil (sep : Char) (l : List Char) :
    splitOnChar sep l ≠ [] := by
  cases l with
  | nil => simp [splitOnChar]
  | cons c cs =>
    simp only [splitOnChar]
    by_cases h : c = sep
    · simp [h]
    · simp only [h, if_false]
      cases splitOnChar sep cs <;> simp

theorem splitOnChar_length_two (sep : Char) (l : List Char) (h : sep ∈ l) :
    2 ≤ (splitOnChar sep l).length := by
  induction l with
  | nil => cases h
  | cons c cs ih =>
    simp only [splitOnChar]
    by_cases hc : c = sep
    · simp only [hc, if_true, List.length_cons]
      have := splitOnChar_ne_nil sep cs
      cases hsplit : splitOnChar sep cs with
      | nil => exact absurd hsplit this
      | cons p ps => simp
    · have hmem : sep ∈ cs := by
        cases h with
        | head => exact absurd rfl hc
        | tail _ h => exact h
      have := ih hmem
      simp only [hc, if_false]
      cases hsplit : splitOnChar sep cs with
      | nil => exact absurd hsplit (splitOnChar_ne_nil sep cs)
      | cons p ps =>
        rw [hsplit] at this
        simpa using this

theorem cookiesLoop_ne_crash (entries : List (List Char))
    (h : ∀ entry ∈ entries, '=' ∈ entry) :
    ∀ acc, cookiesLoop entries acc ≠ CookiesResult.crash := by
  induction entries with
  | nil => intro acc; simp [cookiesLoop]
  | cons entry rest ih =>
    intro acc
    have hmem : '=' ∈ entry := h entry (by simp)
    have hlen := splitOnChar_length_two '=' entry hmem
    simp only [cookiesLoop]
    cases hsplit : splitOnChar '=' entry with
    | nil => rw [hsplit] at hlen; simp at hlen
    | cons a tl =>
      cases tl with
      | nil => rw [hsplit] at hlen; simp at hlen
      | cons b tl' => exact ih (fun e he => h e (by simp [he])) _

theorem chunksOf_flatten (bytes : List Nat) :
    (chunksOf bytes).flatten = bytes := by
  rw [chunksOf]
  split
  · rename_i h; simp [h]
  · rename_i h
    rw [List.flatten_cons, chunksOf_flatten (bytes.drop CHUNK),
      List.take_append_drop]
termination_by bytes.length
decreasing_by
  rename_i h
  have : bytes.length ≠ 0 := fun h0 => h (List.length_eq_zero.mp h0)
  simp only [List.length_drop, CHUNK]
  omega

theorem chunksOf_chunk_le (bytes : List Nat) :
    ∀ c ∈ chunksOf bytes, c.length ≤ CHUNK := by
  rw [chunksOf]
  split
  · simp
  · rename_i h
    intro c hc
    rcases List.mem_cons.mp hc with h1 | h2
    · subst h1; rw [List.length_take]; exact min_le_left _ _
    · exact chunksOf_chunk_le (bytes.drop CHUNK) c h2
termination_by bytes.length
decreasing_by
  rename_i h
  have : bytes.length ≠ 0 := fun h0 => h (List.length_eq_zero.mp h0)
  simp only [List.length_drop, CHUNK]
  omega

theorem writeBodyLoop_eq_chunks (bytes : List Nat) (start : Nat) :
    writeBodyLoop bytes start =
      ((chunksOf (bytes.drop start)).map chunkFrame).flatten := by
  rw [writeBodyLoop]
  split
  · rename_i h
    have hlen : (bytes.drop start).length = bytes.length - start :=
      List.length_drop start bytes
    have hne : bytes.drop start ≠ [] := by
      intro h0
      have h2 := congrArg List.length h0
      rw [hlen] at h2
      simp at h2
      omega
    rw [chunksOf, if_neg hne, List.map_cons, List.flatten_cons]
    have htake : (bytes.drop start).take (min CHUNK (bytes.length - start)) =
        (bytes.drop start).take CHUNK := by
      rw [List.take_eq_take, hlen]
      omega
    have hclen : ((bytes.drop start).take CHUNK).length =
        min CHUNK (bytes.length - start) := by
      rw [List.length_take, hlen]
    have hdrop : bytes.drop (start + min CHUNK (bytes.length - start)) =
        (bytes.drop start).drop CHUNK := by
      rw [List.drop_drop]
      rcases le_or_lt (bytes.length - start) CHUNK with hc | hc
      · rw [List.drop_eq_nil_of_le (by omega),
          List.drop_eq_nil_of_le (by simp only [CHUNK] at hc ⊢; omega)]
      · have hmin : min CHUNK (bytes.length - start) = CHUNK :=
          min_eq_left (le_of_lt hc)
        rw [hmin, Nat.add_comm]
    rw [writeBodyLoop_eq_chunks bytes (start + min CHUNK (bytes.length - start)),
      hdrop, chunkFrame, hclen, htake]
  · rename_i h
    rw [List.drop_eq_nil_of_le (le_of_not_lt h), chunksOf]
    simp
termination_by bytes.length - start
decreasing_by
  rename_i h
  have : 0 < min CHUNK (bytes.length - start) := lt_min (by decide) (by omega)
  omega

theorem splitFirstColon_no_colon (l : List Char) (h : ':' ∉ l) :
    splitFirstColon l = (l, none) := by
  induction l with
  | nil => rfl
  | cons c cs ih =>
    have hc : c ≠ ':' := fun hc => h (hc ▸ List.mem_cons_self c cs)
    have hcs : ':' ∉ cs := fun hm => h (List.mem_cons_of_mem c hm)
    simp [splitFirstColon, hc, ih hcs]

theorem splitFirstColon_append (l1 l2 : List Char) (h : ':' ∉ l1) :
    splitFirstColon (l1 ++ ':' :: l2) = (l1, some l2) := by
  induction l1 with
  | nil => simp [splitFirstColon]
  | cons c cs ih =>
    have hc : c ≠ ':' := fun hc => h (hc ▸ List.mem_cons_self c cs)
    have hcs : ':' ∉ cs := fun hm => h (List.mem_cons_of_mem c hm)
    simp [splitFirstColon, hc, ih hcs]

/-! ## Claim theorems -/

/-- C3, counterexample: the claim says `CODE503` serializes to
"503 Service Unavailable", but the source's arm reads "503 Service
Unabailable". -/
theorem statusCode_503_text_counterexample :
    StatusCode.str StatusCode.CODE503 ≠ "503 Service Unavailable".toList := by
  decide

/-- C3, amended: each `StatusCode` variant serializes to its catalog text —
canonical "NNN Reason-Phrase" except the misspelled 503 arm — and the variants
(hence representable codes) are exactly this 30-element catalog: the spec's
list without 305, 306, 402 and 407, and without 201. -/
theorem statusCode_catalog_amended :
    allStatusCodes.map StatusCode.str =
      ["100 Continue".toList, "102 Processing".toList, "103 Early Hints".toList,
       "200 OK".toList, "202 Accepted".toList, "204 No Content".toList,
       "205 Reset Content".toList, "206 Partial Content".toList,
       "300 Multiple Choices".toList, "301 Moved Permanently".toList,
       "302 Found".toList, "303 See Other".toList, "304 Not Modified".toList,
       "307 Temporary Redirect".toList, "308 Permanent Redirect".toList,
       "400 Bad Request".toList, "401 Unauthorized".toList,
       "403 Forbidden".toList, "404 Not Found".toList,
       "405 Method Not Allowed".toList, "406 Not Acceptable".toList,
       "408 Request Timeout".toList, "409 Conflict".toList,
       "500 Internal Server Error".toList, "501 Not Implemented".toList,
       "502 Bad Gateway".toList, "503 Service Unabailable".toList,
       "504 Gateway Timeout".toList, "505 HTTP Version Not Supported".toList,
       "511 Network Authentication Required".toList] ∧
    ∀ c : StatusCode, c ∈ allStatusCodes := by
  refine ⟨by decide, fun c => by cases c <;> decide⟩

/-- C4, counterexample: for the Cookie header value "a=1; b=2" the extracted
map keeps the space after the semicolon in the second key, so it holds
`" b" ↦ "2"` and has no entry under the key "b" — not the claimed
`{"a":"1","b":"2"}`. -/
theorem get_cookies_space_key_counterexample :
    getCookies (cookieRequest "a=1; b=2".toList) =
      CookiesResult.ok
        [("a".toList, "1".toList), (" b".toList, "2".toList)] ∧
    assocGet [("a".toList, "1".toList), (" b".toList, "2".toList)]
      "b".toList = none := by
  exact ⟨by decide, by decide⟩

/-- C4, amended: for the Cookie header value "a=1; b=2", `get_cookies` returns
exactly `{"a":"1"," b":"2"}` (entries are split on `;` then `=`, with no
trimming, so the space after `;` stays in the key); for every request with no
Cookie header it fails with the `NoCookieHeader` error; and `get_cookie` on a
request whose Cookie header is present but lacks the named cookie fails with
the distinct `CookieNotFound` error. -/
theorem get_cookies_amended :
    getCookies (cookieRequest "a=1; b=2".toList) =
      CookiesResult.ok
        [("a".toList, "1".toList), (" b".toList, "2".toList)] ∧
    (∀ request : HTTPRequest, getHeader request "Cookie".toList = none →
      getCookies request = CookiesResult.errNoCookieHeader) ∧
    getCookie (cookieRequest "a=1; b=2".toList) "zzz".toList =
      CookieResult.errCookieNotFound ∧
    CookieResult.errCookieNotFound ≠ CookieResult.errNoCookieHeader := by
  refine ⟨by decide, ?_, by decide, by decide⟩
  intro request h
  unfold getCookies
  rw [h]

theorem get_cookies_amended_witness :
    getCookies { method := Method.GET, path := "/".toList, version := Version.V11,
                 headers := [], body := none } =
      CookiesResult.errNoCookieHeader :=
  get_cookies_amended.2.1 _ (by decide)

/-- C9: cookie extraction is not defensive — on a Cookie header containing an
entry with no `=` (here "abc") the unguarded `unwrap` is reached and the code
crashes rather than returning an error; and no crash occurs provided every
`;`-separated entry contains an `=`. -/
theorem cookie_entry_no_eq_crash :
    getCookies (cookieRequest "abc".toList) = CookiesResult.crash ∧
    (∀ data : List Char, (∀ entry ∈ splitOnChar ';' data, '=' ∈ entry) →
      ∀ request : HTTPRequest, getHeader request "Cookie".toList = some data →
        getCookies request ≠ CookiesResult.crash) := by
  refine ⟨by decide, ?_⟩
  intro data hdata request hreq
  unfold getCookies
  rw [hreq]
  exact cookiesLoop_ne_crash _ hdata []

theorem cookie_entry_no_eq_crash_witness :
    getCookies (cookieRequest "a=1".toList) ≠ CookiesResult.crash :=
  cookie_entry_no_eq_crash.2 "a=1".toList (by decide)
    (cookieRequest "a=1".toList) (by decide)

/-- C7: after `add_route`, `route` returns the handler of the exactly matching
(method, path, version) triple — the most recently registered one, since the
insertion overwrites — and for a request differing in any component of the
triple the lookup is unchanged (in particular `none` on an empty router). -/
theorem router_exact_match {α : Type} (r : Router α) (m : Method)
    (p : List Char) (v : Version) (handler : α) (request : HTTPRequest) :
    Router.route (Router.addRoute r m p v handler) request =
      (if (request.method, request.path, request.version) = (m, p, v)
       then some handler
       else Router.route r request) ∧
    Router.route (Router.empty : Router α) request = none :=
  ⟨assocGet_assocInsert r (m, p, v) handler _, rfl⟩

/-- C8: parsing "GET /foo HTTP/1.1\r\nHost: x\r\n\r\n" succeeds with
method GET, path "/foo", version 1.1, exactly the header `Host: x`, and no
body. -/
theorem parse_simple_request :
    HTTPRequest.fromStr "GET /foo HTTP/1.1\r\nHost: x\r\n\r\n".toList =
      Except.ok { method := Method.GET, path := "/foo".toList,
                  version := Version.V11,
                  headers := [("Host".toList, "x".toList)], body := none } := by
  rfl

/-- C10: a header line is split on its first colon only — left of the colon,
trimmed, is the name; everything after the colon, trimmed, is the value.  A
line with no colon fails with the malformed-header error, while a line with
nothing after the colon parses with the empty string as value. -/
theorem header_line_first_colon :
    (∀ (l : List Char) (ls : List (List Char))
       (acc : List (List Char × List Char)), l ≠ [] → ':' ∉ l →
        parseHeaders (l :: ls) acc = Except.error Err.malformedHeader) ∧
    (∀ (l1 l2 : List Char) (ls : List (List Char))
       (acc : List (List Char × List Char)), ':' ∉ l1 →
        parseHeaders ((l1 ++ ':' :: l2) :: ls) acc =
          parseHeaders ls (assocInsert acc (rustTrim l1) (rustTrim l2))) ∧
    HTTPRequest.fromStr "GET / HTTP/1.1\r\nX-Empty:\r\n\r\n".toList =
      Except.ok { method := Method.GET, path := "/".toList,
                  version := Version.V11,
                  headers := [("X-Empty".toList, ([] : List Char))],
                  body := none } ∧
    HTTPRequest.fromStr "GET / HTTP/1.1\r\nNoColon\r\n\r\n".toList =
      Except.error Err.malformedHeader := by
  refine ⟨?_, ?_, by rfl, by rfl⟩
  · intro l ls acc hne hcolon
    rw [parseHeaders, if_neg hne, splitFirstColon_no_colon l hcolon]
  · intro l1 l2 ls acc hcolon
    have hne : l1 ++ ':' :: l2 ≠ [] := by simp
    rw [parseHeaders, if_neg hne, splitFirstColon_append l1 l2 hcolon]

theorem header_line_first_colon_witness :
    parseHeaders ["NoColon".toList] [] = Except.error Err.malformedHeader ∧
    parseHeaders [("A".toList ++ ':' :: " 1 ".toList)] [] =
      parseHeaders [] (assocInsert [] (rustTrim "A".toList)
        (rustTrim " 1 ".toList)) :=
  ⟨header_line_first_colon.1 "NoColon".toList [] [] (by decide) (by decide),
   header_line_first_colon.2.1 "A".toList " 1 ".toList [] [] (by decide)⟩

/-- C2: `write_response` emits a present body as the frames of its ≤4096-byte
chunks — each an uppercase-hex length line, CRLF, the chunk bytes, CRLF — whose
payloads concatenate back to the body byte-for-byte, always terminated by the
zero-length chunk marker `0\r\n\r\n`; with no body, nothing precedes that
marker but the head. -/
theorem write_response_chunked_body (response : HTTPResponse) :
    (∀ bytes : List Nat, response.body = some bytes →
      writeResponse response =
          responseHead response ++
            ((chunksOf bytes).map chunkFrame).flatten ++ chunkTerminator ∧
        (chunksOf bytes).flatten = bytes ∧
        (∀ c ∈ chunksOf bytes, c.length ≤ CHUNK)) ∧
    (response.body = none →
      writeResponse response = responseHead response ++ chunkTerminator) := by
  constructor
  · intro bytes hb
    refine ⟨?_, chunksOf_flatten bytes, chunksOf_chunk_le bytes⟩
    unfold writeResponse responseHead chunkTerminator
    simp only [hb, writeBodyLoop_eq_chunks bytes 0, List.drop_zero,
      List.append_assoc]
  · intro hb
    unfold writeResponse responseHead chunkTerminator
    simp [hb]

theorem write_response_chunked_body_witness :
    (writeResponse { version := Version.V11, statusCode := StatusCode.CODE200,
                     headers := [], body := some [65, 66] } =
        responseHead { version := Version.V11, statusCode := StatusCode.CODE200,
                       headers := [], body := some [65, 66] } ++
          ((chunksOf [65, 66]).map chunkFrame).flatten ++ chunkTerminator ∧
      (chunksOf [65, 66]).flatten = [65, 66] ∧
      (∀ c ∈ chunksOf [65, 66], c.length ≤ CHUNK)) ∧
    writeResponse { version := Version.V11, statusCode := StatusCode.CODE200,
                    headers := [], body := none } =
      responseHead { version := Version.V11, statusCode := StatusCode.CODE200,
                     headers := [], body := none } ++ chunkTerminator :=
  ⟨(write_response_chunked_body _).1 [65, 66] rfl,
   (write_response_chunked_body _).2 rfl⟩

/-- C6: `write_response` force-sets `Transfer-Encoding: chunked` before
serialization — overwriting any value the handler placed there while leaving
every other header entry unchanged — and the emitted head is the status line
and the `Name: Value` header lines joined with bare `\n`, followed by `\n\n`
before the chunk stream. -/
theorem write_response_head_framing (response : HTTPResponse) :
    writeResponse response =
        charsToBytes
          (response.version.str ++ [' '] ++ response.statusCode.str ++ ['\n'] ++
            List.intercalate "\n".toList
              ((assocInsert response.headers "Transfer-Encoding".toList
                  "chunked".toList).map
                (fun kv => kv.1 ++ [':', ' '] ++ kv.2)) ++ ['\n', '\n']) ++
          (match response.body with
           | some bytes => writeBodyLoop bytes 0
           | none => []) ++ chunkTerminator ∧
    assocGet (assocInsert response.headers "Transfer-Encoding".toList
        "chunked".toList) "Transfer-Encoding".toList = some "chunked".toList ∧
    (∀ k : List Char, k ≠ "Transfer-Encoding".toList →
      assocGet (assocInsert response.headers "Transfer-Encoding".toList
          "chunked".toList) k = assocGet response.headers k) := by
  refine ⟨?_, ?_, ?_⟩
  · unfold writeResponse
    simp only [HTTPResponse.str, joinNl, chunkTerminator, List.append_assoc]
  · rw [assocGet_assocInsert]
    simp
  · intro k hk
    rw [assocGet_assocInsert, if_neg hk]

theorem write_response_head_framing_witness :
    assocGet (assocInsert [("X".toList, "y".toList)]
        "Transfer-Encoding".toList "chunked".toList) "X".toList =
      assocGet [("X".toList, "y".toList)] "X".toList :=
  (write_response_head_framing
    { version := Version.V11, statusCode := StatusCode.CODE200,
      headers := [("X".toList, "y".toList)], body := none }).2.2
    "X".toList (by decide)

set_option maxHeartbeats 4000000 in
/-- C5: whenever `from_str` accepts a string as a method or version token, the
acceptance is exactly a case-insensitive match — serializing the parsed value
returns the string's ASCII uppercasing, the canonical token — and `from_str`
fails with the unrecognized-token error precisely on the strings whose
uppercasing lies outside the fixed token set, never falling back to a default
variant. -/
theorem wire_tokens_roundtrip :
    (∀ (s : List Char) (m : Method), Method.fromStr s = Except.ok m →
        Method.str m = asciiUpper s ∧ asciiUpper s ∈ methodTokens) ∧
    (∀ s : List Char, asciiUpper s ∈ methodTokens →
        ∃ m, Method.fromStr s = Except.ok m) ∧
    (∀ s : List Char, asciiUpper s ∉ methodTokens →
        Method.fromStr s = Except.error Err.noMatchingMethod) ∧
    (∀ (s : List Char) (v : Version), Version.fromStr s = Except.ok v →
        Version.str v = asciiUpper s ∧ asciiUpper s ∈ versionTokens) ∧
    (∀ s : List Char, asciiUpper s ∈ versionTokens →
        ∃ v, Version.fromStr s = Except.ok v) ∧
    (∀ s : List Char, asciiUpper s ∉ versionTokens →
        Version.fromStr s = Except.error Err.noMatchingVersion) := by
  refine ⟨?_, ?_, ?_, ?_, ?_, ?_⟩
  · intro s m h
    simp only [Method.fromStr] at h
    split_ifs at h with h1 h2 h3 h4 h5 h6 h7 h8 h9
    · simp only [Except.ok.injEq] at h
      subst h
      exact ⟨by simp [Method.str, h1], by rw [h1]; decide⟩
    · simp only [Except.ok.injEq] at h
      subst h
      exact ⟨by simp [Method.str, h2], by rw [h2]; decide⟩
    · simp only [Except.ok.injEq] at h
      subst h
      exact ⟨by simp [Method.str, h3], by rw [h3]; decide⟩
    · simp only [Except.ok.injEq] at h
      subst h
      exact ⟨by simp [Method.str, h4], by rw [h4]; decide⟩
    · simp only [Except.ok.injEq] at h
      subst h
      exact ⟨by simp [Method.str, h5], by rw [h5]; decide⟩
    · simp only [Except.ok.injEq] at h
      subst h
      exact ⟨by simp [Method.str, h6], by rw [h6]; decide⟩
    · simp only [Except.ok.injEq] at h
      subst h
      exact ⟨by simp [Method.str, h7], by rw [h7]; decide⟩
    · simp only [Except.ok.injEq] at h
      subst h
      exact ⟨by simp [Method.str, h8], by rw [h8]; decide⟩
    · simp only [Except.ok.injEq] at h
      subst h
      exact ⟨by simp [Method.str, h9], by rw [h9]; decide⟩
  · intro s hs
    simp only [Method.fromStr]
    split_ifs with h1 h2 h3 h4 h5 h6 h7 h8 h9
    · exact ⟨_, rfl⟩
    · exact ⟨_, rfl⟩
    · exact ⟨_, rfl⟩
    · exact ⟨_, rfl⟩
    · exact ⟨_, rfl⟩
    · exact ⟨_, rfl⟩
    · exact ⟨_, rfl⟩
    · exact ⟨_, rfl⟩
    · exact ⟨_, rfl⟩
    · simp only [methodTokens, List.mem_cons, List.not_mem_nil,
        or_false] at hs
      rcases hs with hh | hh | hh | hh | hh | hh | hh | hh | hh
      exacts [absurd hh h1, absurd hh h2, absurd hh h3, absurd hh h4, absurd hh h5, absurd hh h6, absurd hh h7, absurd hh h8, absurd hh h9]
  · intro s hs
    simp only [Method.fromStr]
    split_ifs with h1 h2 h3 h4 h5 h6 h7 h8 h9
    · exact absurd (show _ ∈ methodTokens by rw [h1]; decide) hs
    · exact absurd (show _ ∈ methodTokens by rw [h2]; decide) hs
    · exact absurd (show _ ∈ methodTokens by rw [h3]; decide) hs
    · exact absurd (show _ ∈ methodTokens by rw [h4]; decide) hs
    · exact absurd (show _ ∈ methodTokens by rw [h5]; decide) hs
    · exact absurd (show _ ∈ methodTokens by rw [h6]; decide) hs
    · exact absurd (show _ ∈ methodTokens by rw [h7]; decide) hs
    · exact absurd (show _ ∈ methodTokens by rw [h8]; decide) hs
    · exact absurd (show _ ∈ methodTokens by rw [h9]; decide) hs
    · rfl
  · intro s v h
    simp only [Version.fromStr] at h
    split_ifs at h with h1 h2 h3 h4
    · simp only [Except.ok.injEq] at h
      subst h
      exact ⟨by simp [Version.str, h1], by rw [h1]; decide⟩
    · simp only [Except.ok.injEq] at h
      subst h
      exact ⟨by simp [Version.str, h2], by rw [h2]; decide⟩
    · simp only [Except.ok.injEq] at h
      subst h
      exact ⟨by simp [Version.str, h3], by rw [h3]; decide⟩
    · simp only [Except.ok.injEq] at h
      subst h
      exact ⟨by simp [Version.str, h4], by rw [h4]; decide⟩
  · intro s hs
    simp only [Version.fromStr]
    split_ifs with h1 h2 h3 h4
    · exact ⟨_, rfl⟩
    · exact ⟨_, rfl⟩
    · exact ⟨_, rfl⟩
    · exact ⟨_, rfl⟩
    · simp only [versionTokens, List.mem_cons, List.not_mem_nil,
        or_false] at hs
      rcases hs with hh | hh | hh | hh
      exacts [absurd hh h1, absurd hh h2, absurd hh h3, absurd hh h4]
  · intro s hs
    simp only [Version.fromStr]
    split_ifs with h1 h2 h3 h4
    · exact absurd (show _ ∈ versionTokens by rw [h1]; decide) hs
    · exact absurd (show _ ∈ versionTokens by rw [h2]; decide) hs
    · exact absurd (show _ ∈ versionTokens by rw [h3]; decide) hs
    · exact absurd (show _ ∈ versionTokens by rw [h4]; decide) hs
    · rfl

theorem wire_tokens_roundtrip_witness :
    (Method.str Method.GET = asciiUpper "gEt".toList ∧
      asciiUpper "gEt".toList ∈ methodTokens) ∧
    (Version.str Version.V11 = asciiUpper "http/1.1".toList ∧
      asciiUpper "http/1.1".toList ∈ versionTokens) ∧
    Method.fromStr "BREW".toList = Except.error Err.noMatchingMethod :=
  ⟨wire_tokens_roundtrip.1 "gEt".toList Method.GET (by rfl),
   wire_tokens_roundtrip.2.2.2.1 "http/1.1".toList Version.V11 (by rfl),
   wire_tokens_roundtrip.2.2.1 "BREW".toList (by decide)⟩

/-- C1 (code bug): `read_request` loops reading 4096-byte chunks until a short
read, but each read overwrites the single buffer from index 0, and the final
text is the ≤4096-char buffer string sliced at the accumulated length: after a
full 4096-byte read, any further nonempty short read makes the accumulated
length exceed the buffer and the slice crashes out of bounds — no input larger
than one chunk is ever parsed — while a single short read yields exactly its
own bytes. -/
theorem read_request_overflow_crash :
    (∀ r1 r2 : List Nat, r1.length = CHUNK → r2.length < CHUNK →
        0 < r2.length → readRequestRaw [r1, r2] = ReadOutcome.crash) ∧
    (∀ r : List Nat, r.length < CHUNK →
        readRequestRaw [r] = ReadOutcome.text r) := by
  constructor
  · intro r1 r2 h1 h2 h3
    have hb2 : (bufAfterRead (bufAfterRead (List.replicate CHUNK 0) r1)
        r2).length = CHUNK := by
      simp only [bufAfterRead, List.length_append, List.length_drop,
        List.length_replicate]
      omega
    unfold readRequestRaw
    simp only [readLoop, h1, lt_self_iff_false, if_false, if_pos h2]
    rw [hb2, if_neg (by omega)]
  · intro r hr
    have hb : (bufAfterRead (List.replicate CHUNK 0) r).length = CHUNK := by
      simp only [bufAfterRead, List.length_append, List.length_drop,
        List.length_replicate]
      omega
    unfold readRequestRaw
    simp only [readLoop, if_pos hr]
    rw [hb, if_pos (by omega)]
    simp only [bufAfterRead, Nat.zero_add, List.take_left]

theorem read_request_overflow_crash_witness :
    readRequestRaw [List.replicate CHUNK 97, [98]] = ReadOutcome.crash ∧
    readRequestRaw [[104, 105]] = ReadOutcome.text [104, 105] :=
  ⟨read_request_overflow_crash.1 (List.replicate CHUNK 97) [98]
      (by simp) (by decide) (by decide),
   read_request_overflow_crash.2 [104, 105] (by decide)⟩

end FObserver
